import Mathlib

/-!
Verification of the document-indexing core of Agent_Algernon: the
token-bounded chunker of `src/app/streamlit_app.py` and the product-quantization
vector store of `src/vector_store.py`.

Texts are modelled as `List Char`, embedding vectors as `List ℚ` (exact
rationals in place of IEEE floats; the algorithms under study use only ring
operations, comparisons and square roots, and the square roots are taken in `ℝ`).
External collaborators (the BERT embedder, the k-means fitting procedure of
scikit-learn, the Qdrant client) are modelled as explicit function parameters
or omitted where they do not influence the claims (network persistence).
-/

/-! ### Python primitives

Faithful models of the Python/numpy string and array primitives the source
relies on: slicing with clamping, `str.rfind`, `str.strip`, `np.array_split`,
`np.argmin` (first index attaining the minimum). -/

/-- Normalisation of a Python slice index against a string of length `len`:
negative indices count from the end, and the result is clamped to `[0, len]`. -/
def normIdx (len : Nat) (i : Int) : Nat :=
  if i < 0 then (len + i).toNat else min i.toNat len

/-- Python slice `text[start:stop]` (step 1) with full index normalisation. -/
def pySlice (text : List Char) (start stop : Int) : List Char :=
  (text.take (normIdx text.length stop)).drop (normIdx text.length start)

/-- Scan downward from index `e - 1` to `s` looking for character `c`.
`rfindCharAux text c s e` inspects indices `e-1, e-2, ..., s`. -/
def rfindCharAux (text : List Char) (c : Char) (s : Nat) : Nat → Option Nat
  | 0 => none
  | k + 1 => if s ≤ k ∧ text.getD k ' ' = c then some k else rfindCharAux text c s k

/-- Python `text.rfind(c, start, stop)` for a single character `c`: the highest
index of `c` in the normalised range, or `-1` when absent. -/
def pyRfind (text : List Char) (c : Char) (start stop : Int) : Int :=
  match rfindCharAux text c (normIdx text.length start) (normIdx text.length stop) with
  | some k => (k : Int)
  | none => -1

/-- The whitespace characters stripped by Python `str.strip()`. -/
def isPySpace (c : Char) : Bool :=
  c = ' ' || c = '\t' || c = '\n' || c = '\r' || c = '\x0b' || c = '\x0c'

/-- Python `str.strip()`: remove leading and trailing whitespace. -/
def pyStrip (l : List Char) : List Char :=
  ((l.dropWhile isPySpace).reverse.dropWhile isPySpace).reverse

/-- Does the pattern `sep` occur in `t` starting at index `i`? -/
def occursAt (sep t : List Char) (i : Nat) : Bool :=
  decide ((t.drop i).take sep.length = sep)

/-- Scan downward from index `k` to `0` looking for an occurrence of `sep`. -/
def rfindListAux (sep t : List Char) : Nat → Option Nat
  | 0 => if occursAt sep t 0 then some 0 else none
  | k + 1 => if occursAt sep t (k + 1) then some (k + 1) else rfindListAux sep t k

/-- Python `t.rfind(sep)` for a substring pattern: the highest index at which
`sep` occurs in `t`, or `none` when it does not occur. -/
def rfindList (t sep : List Char) : Option Nat :=
  if sep.length ≤ t.length then rfindListAux sep t (t.length - sep.length) else none

/-- Split a list into consecutive pieces of the given sizes. -/
def splitSizes {α : Type} : List Nat → List α → List (List α)
  | [], _ => []
  | n :: ns, v => v.take n :: splitSizes ns (v.drop n)

/-- Model of `np.array_split(v, M)`: `M` consecutive pieces, the first
`len % M` of size `len / M + 1` and the remaining ones of size `len / M`. -/
def array_split {α : Type} (v : List α) (M : Nat) : List (List α) :=
  splitSizes ((List.range M).map fun i =>
    if i < v.length % M then v.length / M + 1 else v.length / M) v

/-- Model of `np.argmin` on a list of rationals: the first index attaining the
minimum (`0` on the empty list, which numpy instead rejects). -/
def argminIdx : List ℚ → Nat
  | [] => 0
  | x :: xs =>
    if xs = [] then 0
    else if x ≤ xs.getD (argminIdx xs) 0 then 0 else argminIdx xs + 1

/-- Squared Euclidean distance of two equal-length coordinate lists. The zip
pairs coordinates, so this kernel is meaningful only for equal lengths:
sklearn validates dimension agreement and raises `ValueError` *before* any
distance is computed, and the model performs that validation explicitly where
a mismatch is reachable (see `compute_distance_table`). -/
def sqdistQ (a b : List ℚ) : ℚ :=
  ((a.zip b).map fun p => (p.1 - p.2) ^ 2).sum

/-- Euclidean (non-squared) distance of two equal-length coordinate lists, as
computed by sklearn's `euclidean_distances` at its default `squared=False`
(only ever applied after the dimension validation has succeeded). -/
noncomputable def euclidQ (a b : List ℚ) : ℝ :=
  Real.sqrt ((sqdistQ a b : ℚ) : ℝ)

/-! ### The token-bounded chunker (`streamlit_app.py`)

`find_optimal_chunk_size`, `find_natural_break` and `create_document_splits`
from `src/app/streamlit_app.py`. The tokenizer is an explicit parameter
`tok : List Char → Nat` standing for `len(tokenizer.encode(·))`. The binary
search loop and the document loop are given a fuel argument; the fuel is
consumed once per Python loop iteration, so a `none` result corresponds
exactly to a non-terminating run of the source loop (the document loop makes
no progress once a chunk boundary of `0` is produced, and the binary search
loop always halts within `text.length + 2` iterations). -/

/-- Loop body of `find_optimal_chunk_size`: Python's
`while left <= right` binary search, with `optimal` the best size found.
A `right` of `-1` (Python) is modelled by returning when `mid = 0` fails. -/
def focsLoop (tok : List Char → Nat) (text : List Char) (max_tokens : Nat) :
    Nat → Nat → Nat → Nat → Nat
  | 0, _, _, optimal => optimal
  | fuel + 1, left, right, optimal =>
    if left ≤ right then
      let mid := (left + right) / 2
      if tok (text.take mid) ≤ max_tokens then
        focsLoop tok text max_tokens fuel (mid + 1) right mid
      else if mid = 0 then optimal
      else focsLoop tok text max_tokens fuel left (mid - 1) optimal
    else optimal

/-- `find_optimal_chunk_size(text, tokenizer, max_tokens)`: binary search for
the largest prefix length whose token count fits within `max_tokens`. -/
def find_optimal_chunk_size (tok : List Char → Nat) (text : List Char)
    (max_tokens : Nat) : Nat :=
  focsLoop tok text max_tokens (text.length + 2) 0 text.length 0

/-- The `for separator in break_points` loop of `find_natural_break`: return
`search_start + last_break + len(separator)` for the first separator found,
else fall through to the default `len(text)`. -/
def fnbGo (ss : Nat) (t : List Char) (dflt : Nat) : List (List Char) → Nat
  | [] => dflt
  | sep :: rest =>
    match rfindList t sep with
    | some p => ss + p + sep.length
    | none => fnbGo ss t dflt rest

/-- `find_natural_break(text, window=100)`: search the trailing window for the
highest occurrence of a separator, trying `"\n\n"`, `"\n"`, `". "`, `" "` in
priority order; return the end of the separator, or `len(text)` if none. -/
def find_natural_break (text : List Char) : Nat :=
  fnbGo (text.length - 100) (text.drop (text.length - 100)) text.length
    [['\n', '\n'], ['\n'], ['.', ' '], [' ']]

/-- One chunk record of `create_document_splits` (the source dictionary also
carries `section_title`, `token_density` and a wall-clock `timestamp`;
those are presentation metadata with no bearing on the splitting itself). -/
structure Split where
  start : Nat
  stop : Nat
  tokens : Nat
  content : List Char
  deriving DecidableEq, Repr

/-- The chunk boundary chosen at offset `pos`: binary-search size, then
natural-break truncation, exactly as the body of `create_document_splits`. -/
def chunk_end_at (tok : List Char → Nat) (content : List Char) (max_tokens : Nat)
    (pos : Nat) : Nat :=
  find_natural_break ((content.drop pos).take
    (find_optimal_chunk_size tok (content.drop pos) max_tokens))

/-- Loop of `create_document_splits`: `while current_position < len(content)`.
One unit of fuel is one iteration; exhausting the fuel while the condition
still holds models a non-terminating run. -/
def cdsLoop (tok : List Char → Nat) (content : List Char) (max_tokens : Nat) :
    Nat → Nat → Option (List Split)
  | 0, pos => if pos < content.length then none else some []
  | fuel + 1, pos =>
    if pos < content.length then
      let ce := chunk_end_at tok content max_tokens pos
      let chunk := (content.drop pos).take ce
      (cdsLoop tok content max_tokens fuel (pos + ce)).map
        fun rest => ⟨pos, pos + ce, tok chunk, chunk⟩ :: rest
    else some []

/-- `create_document_splits(content, tokenizer, max_tokens)`. The fuel
`content.length + 1` suffices whenever every iteration advances; a `none`
result corresponds to the infinite loop the source runs into when the
boundary algorithm yields an empty chunk. -/
def create_document_splits (tok : List Char → Nat) (content : List Char)
    (max_tokens : Nat) : Option (List Split) :=
  cdsLoop tok content max_tokens (content.length + 1) 0

/-! ### The product-quantization vector store (`vector_store.py`)

`VectorStore` state and its methods. The Qdrant client, the BERT tokenizer
and model, and the collection bookkeeping are external collaborators: the
embedder enters as a function parameter `embed`, the k-means fitting procedure
(`KMeans(n_clusters=K, random_state=42).fit`) as a function parameter `fit`
returning the `K` cluster centres for a batch of points, and network
persistence (`upsert`) is omitted as it does not affect the store's state.
A fitted `KMeans` object is represented by its `cluster_centers_` matrix;
`predict` is the nearest-centre assignment (first index on ties, as
`np.argmin`). -/

/-- Python error values that the modelled methods can raise. `notTrained` is
the error kind named by the specification's error taxonomy; the source never
raises it, so the model keeps it solely for comparison. -/
inductive PyErr where
  | notTrained
  | typeError
  | indexError
  | valueError
  deriving DecidableEq, Repr

/-- Decidable equality of `Except` results, for evaluating the modelled
methods on concrete inputs. -/
instance {e a : Type} [DecidableEq e] [DecidableEq a] : DecidableEq (Except e a) := fun x y =>
  match x, y with
  | .ok u, .ok v =>
    if h : u = v then .isTrue (congrArg Except.ok h)
    else .isFalse fun hc => h (Except.ok.inj hc)
  | .error u, .error v =>
    if h : u = v then .isTrue (congrArg Except.error h)
    else .isFalse fun hc => h (Except.error.inj hc)
  | .ok _, .error _ => .isFalse fun hc => Except.noConfusion hc
  | .error _, .ok _ => .isFalse fun hc => Except.noConfusion hc

/-- The state of a `VectorStore` as set up by `__init__` and mutated by the
methods: `segment_size` starts as `None`, `codebooks`, `pq_codes` and
`chunks` start empty. -/
structure Store where
  n_segments : Nat
  n_clusters : Nat
  segment_size : Option Nat
  codebooks : List (List (List ℚ))
  pq_codes : List (List Nat)
  chunks : List (List Char)
  deriving DecidableEq, Repr

/-- The segment-`i` slice `v[start:end]` with `start = i * s` and
`end = start + s` except that the last of the `M` segments runs to `dim`
(`vectors.shape[1]`). This is the slicing used by both
`train_product_quantizer` and `encode_vectors`. -/
def segSlice (dim s M i : Nat) (v : List ℚ) : List ℚ :=
  let start := i * s
  let stop := if i < M - 1 then start + s else dim
  (v.drop start).take (stop - start)

/-- `_split_vector(vector)`: `np.array_split(vector, n_segments)`. -/
def _split_vector (st : Store) (v : List ℚ) : List (List ℚ) :=
  array_split v st.n_segments

/-- `train_product_quantizer(vectors)`: set `segment_size = dim // M`, slice
the batch into `M` column blocks (the last absorbing the remainder), and fit
one k-means codebook per block. `fit K pts` stands for
`KMeans(n_clusters=K, random_state=42).fit(pts).cluster_centers_`. -/
def train_product_quantizer (fit : Nat → List (List ℚ) → List (List ℚ))
    (st : Store) (vectors : List (List ℚ)) : Store :=
  let dim := (vectors.headD []).length
  let s := dim / st.n_segments
  let segments := (List.range st.n_segments).map fun i =>
    vectors.map (segSlice dim s st.n_segments i)
  { st with segment_size := some s,
            codebooks := segments.map fun seg => fit st.n_clusters seg }

/-- `KMeans.predict` on one point: index of the nearest centre by Euclidean
distance, lowest index on ties (squared distances order identically). -/
def predictIdx (centers : List (List ℚ)) (x : List ℚ) : Nat :=
  argminIdx (centers.map fun c => sqdistQ x c)

/-- `encode_vectors(vectors)`: one PQ code per row; entry `m` is the nearest
centroid index in codebook `m` for the row's segment-`m` slice. Called before
training, `m * self.segment_size` multiplies by `None` and Python raises a
`TypeError` on the first loop iteration (so whenever `n_segments ≥ 1`);
a missing codebook entry would raise an `IndexError`. With `n_segments = 0`
the loop body never runs and the codes are empty. -/
def encode_vectors (st : Store) (vectors : List (List ℚ)) :
    Except PyErr (List (List Nat)) :=
  if st.n_segments = 0 then .ok (vectors.map fun _ => [])
  else
    match st.segment_size with
    | none => .error .typeError
    | some s =>
      if st.codebooks.length < st.n_segments then .error .indexError
      else .ok (vectors.map fun v =>
        (List.range st.n_segments).map fun m =>
          predictIdx (st.codebooks.getD m []) (segSlice v.length s st.n_segments m v))

/-- The table values `compute_distance_table` fills in when every
`euclidean_distances` call and row assignment succeeds: an
`n_segments × n_clusters` table of zeros whose row `m` is overwritten, for
each `(q_segment, codebook)` pair produced by
`zip(self._split_vector(query), self.codebooks)`, with the *non-squared*
Euclidean distances to the centres (sklearn's `squared` flag defaults to
`False`). Rows beyond `len(codebooks)` keep their zeros. -/
noncomputable def distance_table_entries (st : Store) (query : List ℚ) :
    List (List ℝ) :=
  (List.range st.n_segments).map fun m =>
    if h : m < st.codebooks.length then
      (st.codebooks.get ⟨m, h⟩).map fun c =>
        euclidQ ((_split_vector st query).getD m []) c
    else List.replicate st.n_clusters (0 : ℝ)

/-- The dimension conditions the loop of `compute_distance_table` needs to
run to completion: for every `(q_segment, codebook)` pair in the zip, the
centroids have the dimension of the query's segment slice (checked by
sklearn's `euclidean_distances`, which raises `ValueError` on a mismatch),
and the codebook holds exactly `n_clusters` centres (numpy's row assignment
`distance_table[m] = row` raises `ValueError` when the row does not
broadcast). -/
def dims_match (st : Store) (query : List ℚ) : Prop :=
  ∀ qc ∈ (_split_vector st query).zip st.codebooks,
    (∀ c ∈ qc.2, c.length = qc.1.length) ∧ qc.2.length = st.n_clusters

instance (st : Store) (query : List ℚ) : Decidable (dims_match st query) := by
  unfold dims_match
  infer_instance

/-- `compute_distance_table(query)`: loop over
`zip(self._split_vector(query), self.codebooks)` filling the preallocated
zero table row by row with `euclidean_distances(q_segment, centers)`. When a
segment slice and its codebook's centres disagree in dimension, or a row does
not have exactly `n_clusters` entries, the Python call raises `ValueError`
(this happens on the query path whenever `n_segments` does not divide the
trained dimension, since `np.array_split` segments the query differently from
training — see `train_split_vs_array_split`). -/
noncomputable def compute_distance_table (st : Store) (query : List ℚ) :
    Except PyErr (List (List ℝ)) :=
  if dims_match st query then .ok (distance_table_entries st query)
  else .error .valueError

/-- The documented contract of `np.argsort(distances)` and nothing more: the
result lists the indices that would sort the array, i.e. it is a permutation
of the index range along which the values are non-decreasing. The default
`kind='quicksort'` fixes no order among equal values (it is documented as not
stable), so the sorting function enters the model as a parameter constrained
only by this contract, like the other external numpy/sklearn primitives. -/
def IsArgsortSpec (asort : List ℝ → List Nat) : Prop :=
  ∀ l : List ℝ, (asort l).Perm (List.range l.length) ∧
    (asort l).Pairwise (fun i j => l.getD i 0 ≤ l.getD j 0)

/-- One concrete sorting function admissible under `IsArgsortSpec` (an
insertion sort breaking ties by lower index), used to instantiate witnesses;
it is *not* claimed to reproduce the tie order of numpy's default quicksort. -/
noncomputable def argsort_stable (l : List ℝ) : List Nat :=
  List.insertionSort
    (fun i j => l.getD i 0 < l.getD j 0 ∨ (l.getD i 0 = l.getD j 0 ∧ i ≤ j))
    (List.range l.length)

/-- `approximate_nearest_neighbor(query, k)` with the argsort primitive
`asort` as an explicit parameter: build the distance table (propagating its
`ValueError`), sum the looked-up per-segment entries per stored code, and
pair the first `k` indices of the ascending argsort with their distances. -/
noncomputable def approximate_nearest_neighbor (asort : List ℝ → List Nat)
    (st : Store) (query : List ℚ) (k : Nat) : Except PyErr (List (Nat × ℝ)) :=
  match compute_distance_table st query with
  | .error e => .error e
  | .ok distance_table =>
    let distances := st.pq_codes.map fun code =>
      ((code.enum).map fun mc => (distance_table.getD mc.1 []).getD mc.2 0).sum
    .ok (((asort distances).take k).map fun idx => (idx, distances.getD idx 0))

/-- Loop of `_create_chunks`: `while start < text_len`. `start` is a Python
int and can go negative (`start = end - overlap`). One unit of fuel is one
iteration; a `none` result models a non-terminating run. When the fuel is
`0` with the loop condition false, the loop exits normally. -/
def createChunksLoop (text : List Char) (chunk_size overlap : Nat) :
    Nat → Int → List (List Char) → Option (List (List Char))
  | fuel, start, chunks =>
    if start < (text.length : Int) then
      match fuel with
      | 0 => none
      | fuel + 1 =>
        let end0 : Int := start + chunk_size
        let end1 : Int :=
          if end0 < (text.length : Int) then
            let last_period := pyRfind text '.' start end0
            let last_newline := pyRfind text '\n' start end0
            if max last_period last_newline > -1 then max last_period last_newline
            else end0
          else end0
        let chunk := pyStrip (pySlice text start end1)
        createChunksLoop text chunk_size overlap fuel (end1 - overlap)
          (if chunk = [] then chunks else chunks ++ [chunk])
    else some chunks

/-- `_create_chunks(text, chunk_size=256, overlap=64)` including its
fallback: when fewer than `n_clusters` chunks result, recurse with
`chunk_size = max(128, len(text) // (n_clusters + 1))` and `overlap = 32`.
`recFuel` bounds the recursion depth (Python's recursion limit), `loopFuel`
the iterations of each inner loop; `none` models a run that never returns
(either an infinite inner loop or a `RecursionError`). -/
def createChunksRec (n_clusters : Nat) (text : List Char) (loopFuel : Nat) :
    Nat → Nat → Nat → Option (List (List Char))
  | recFuel, chunk_size, overlap =>
    match createChunksLoop text chunk_size overlap loopFuel 0 [] with
    | none => none
    | some chunks =>
      if chunks.length < n_clusters then
        match recFuel with
        | 0 => none
        | r + 1 =>
          createChunksRec n_clusters text loopFuel r
            (max 128 (text.length / (n_clusters + 1))) 32
      else some chunks

/-- `_create_chunks(text)` at its default parameters. -/
def _create_chunks (st : Store) (text : List Char) (loopFuel recFuel : Nat) :
    Option (List (List Char)) :=
  createChunksRec st.n_clusters text loopFuel recFuel 256 64

/-- `_create_embeddings(chunks)`: embed every chunk (external BERT model
`embed`), train the product quantizer when `self.codebooks` is empty, then
encode the batch into `self.pq_codes`. Returns the updated state and the
embedding matrix. -/
def _create_embeddings (fit : Nat → List (List ℚ) → List (List ℚ))
    (embed : List Char → List ℚ) (st : Store) (chunks : List (List Char)) :
    Except PyErr (Store × List (List ℚ)) :=
  let embeddings := chunks.map embed
  let st' := if st.codebooks = [] then train_product_quantizer fit st embeddings else st
  match encode_vectors st' embeddings with
  | .error e => .error e
  | .ok codes => .ok ({ st' with pq_codes := codes }, embeddings)

/-- `process_document(content)`: clear `chunks`, `codebooks` and `pq_codes`,
re-chunk with `_create_chunks`, then embed/train/encode via
`_create_embeddings` (the Qdrant upsert is external persistence and does not
touch the store's state). Returns the updated state with the chunks and the
embedding matrix, `none` for a non-terminating chunking run. -/
def process_document (fit : Nat → List (List ℚ) → List (List ℚ))
    (embed : List Char → List ℚ) (st : Store) (content : List Char)
    (loopFuel recFuel : Nat) :
    Option (Except PyErr (Store × List (List Char) × List (List ℚ))) :=
  let st0 : Store := { st with chunks := [], codebooks := [], pq_codes := [] }
  match _create_chunks st0 content loopFuel recFuel with
  | none => none
  | some chunks =>
    match _create_embeddings fit embed { st0 with chunks := chunks } chunks with
    | .error e => some (.error e)
    | .ok (st2, vectors) => some (.ok (st2, chunks, vectors))

/-! ### Specification-side definitions

Definitions written from the specification's words, used to compare the
source's behaviour against the claims (refinement targets and claim-side
tables). -/

/-- The segmentation the specification describes for training and encoding:
`M` segments of size `D / M`, the last absorbing the remainder. This is
exactly the slicing `segSlice` performs on a vector of length `D`. -/
def train_segmentation (v : List ℚ) (M : Nat) : List (List ℚ) :=
  (List.range M).map fun i => segSlice v.length (v.length / M) M i v

/-- Claim-side distance table: entry `(m, j)` is the *squared* Euclidean
distance between the query's segment-`m` slice and centroid `j` of
codebook `m`, as the specification states it. -/
def spec_squared_table (st : Store) (query : List ℚ) : List (List ℝ) :=
  (List.range st.n_segments).map fun m =>
    (List.range st.n_clusters).map fun j =>
      ((sqdistQ ((_split_vector st query).getD m []) ((st.codebooks.getD m []).getD j []) : ℚ) : ℝ)

/-- Amended-claim distance table: entry `(m, j)` is the (non-squared)
Euclidean distance between the query's segment-`m` slice and centroid `j`
of codebook `m`. -/
noncomputable def spec_euclid_table (st : Store) (query : List ℚ) : List (List ℝ) :=
  (List.range st.n_segments).map fun m =>
    (List.range st.n_clusters).map fun j =>
      euclidQ ((_split_vector st query).getD m []) ((st.codebooks.getD m []).getD j [])

/-- A store whose quantizer state is well-formed after training: one codebook
per segment, each holding exactly `n_clusters` centres, and one stored PQ code
per indexed chunk with `n_segments` entries each below `n_clusters`. -/
def Trained (st : Store) : Prop :=
  st.codebooks.length = st.n_segments ∧
  (∀ cb ∈ st.codebooks, cb.length = st.n_clusters) ∧
  (∀ code ∈ st.pq_codes, code.length = st.n_segments ∧ ∀ c ∈ code, c < st.n_clusters)

instance (st : Store) : Decidable (Trained st) := by
  unfold Trained
  infer_instance

/-! ### Lemmas about the binary search and the natural-break search -/

/-- The binary search never returns a size larger than the text. -/
theorem focsLoop_le (tok : List Char → Nat) (text : List Char) (max_tokens : Nat) :
    ∀ fuel left right optimal, right ≤ text.length → optimal ≤ text.length →
      focsLoop tok text max_tokens fuel left right optimal ≤ text.length := by
  intro fuel
  induction fuel with
  | zero => intro l r o _ ho; simpa [focsLoop] using ho
  | succ n ih =>
    intro l r o hr ho
    simp only [focsLoop]
    split_ifs with h1 h2 h3
    · exact ih _ _ _ hr (by omega)
    · exact ho
    · exact ih _ _ _ (by omega) ho
    · exact ho

/-- Any nonzero size the binary search returns passed the token check. -/
theorem focsLoop_fits (tok : List Char → Nat) (text : List Char) (max_tokens : Nat) :
    ∀ fuel left right optimal,
      (optimal = 0 ∨ tok (text.take optimal) ≤ max_tokens) →
      (focsLoop tok text max_tokens fuel left right optimal = 0 ∨
        tok (text.take (focsLoop tok text max_tokens fuel left right optimal)) ≤ max_tokens) := by
  intro fuel
  induction fuel with
  | zero => intro l r o ho; simpa [focsLoop] using ho
  | succ n ih =>
    intro l r o ho
    simp only [focsLoop]
    split_ifs with h1 h2 h3
    · exact ih _ _ _ (Or.inr h2)
    · exact ho
    · exact ih _ _ _ ho
    · exact ho

/-- `find_optimal_chunk_size` never exceeds the length of the text. -/
theorem find_optimal_chunk_size_le (tok : List Char → Nat) (text : List Char)
    (max_tokens : Nat) : find_optimal_chunk_size tok text max_tokens ≤ text.length :=
  focsLoop_le tok text max_tokens _ _ _ _ le_rfl (Nat.zero_le _)

/-- A nonzero `find_optimal_chunk_size` marks a prefix within the token budget. -/
theorem find_optimal_chunk_size_fits (tok : List Char → Nat) (text : List Char)
    (max_tokens : Nat) (h : find_optimal_chunk_size tok text max_tokens ≠ 0) :
    tok (text.take (find_optimal_chunk_size tok text max_tokens)) ≤ max_tokens :=
  (focsLoop_fits tok text max_tokens _ _ _ _ (Or.inl rfl)).resolve_left h

/-- A successful downward scan stays at or below its starting index. -/
theorem rfindListAux_le (sep t : List Char) :
    ∀ k p, rfindListAux sep t k = some p → p ≤ k := by
  intro k
  induction k with
  | zero => intro p h; simp only [rfindListAux] at h; split_ifs at h <;> simp_all
  | succ n ih =>
    intro p h
    simp only [rfindListAux] at h
    split_ifs at h
    · simp_all
    · exact le_trans (ih p h) (Nat.le_succ n)

/-- A found occurrence of `sep` fits inside `t`. -/
theorem rfindList_bound (t sep : List Char) (p : Nat)
    (h : rfindList t sep = some p) : p + sep.length ≤ t.length := by
  unfold rfindList at h
  split_ifs at h with hle
  · have := rfindListAux_le sep t _ _ h
    omega

/-- The separator loop returns at most `text.length` when the default does and
every separator hit lands inside the window. -/
theorem fnbGo_le (text : List Char) :
    ∀ seps, fnbGo (text.length - 100) (text.drop (text.length - 100)) text.length seps
      ≤ text.length := by
  intro seps
  induction seps with
  | nil => simp [fnbGo]
  | cons sep rest ih =>
    simp only [fnbGo]
    cases h : rfindList (text.drop (text.length - 100)) sep with
    | none => exact ih
    | some p =>
      have hb := rfindList_bound _ _ _ h
      rw [List.length_drop] at hb
      dsimp only
      omega

/-- `find_natural_break` never exceeds the length of its input. -/
theorem find_natural_break_le (text : List Char) :
    find_natural_break text ≤ text.length :=
  fnbGo_le text _

/-- The break point chosen at `pos` is bounded by the binary-search size. -/
theorem chunk_end_at_le_size (tok : List Char → Nat) (content : List Char)
    (max_tokens pos : Nat) :
    chunk_end_at tok content max_tokens pos
      ≤ find_optimal_chunk_size tok (content.drop pos) max_tokens := by
  unfold chunk_end_at
  have h := find_natural_break_le
    ((content.drop pos).take (find_optimal_chunk_size tok (content.drop pos) max_tokens))
  rw [List.length_take] at h
  exact le_trans h (by simp)

/-- The break point chosen at `pos` stays within the remaining text. -/
theorem chunk_end_at_le_rem (tok : List Char → Nat) (content : List Char)
    (max_tokens pos : Nat) :
    pos + chunk_end_at tok content max_tokens pos ≤ content.length ∨
      content.length ≤ pos := by
  rcases Nat.le_total content.length pos with h | h
  · exact Or.inr h
  · left
    unfold chunk_end_at
    have hle := find_natural_break_le
      ((content.drop pos).take (find_optimal_chunk_size tok (content.drop pos) max_tokens))
    rw [List.length_take, List.length_drop] at hle
    omega

/-- A zero binary-search size forces a zero break point. -/
theorem chunk_end_at_of_size_zero (tok : List Char → Nat) (content : List Char)
    (max_tokens pos : Nat)
    (h : find_optimal_chunk_size tok (content.drop pos) max_tokens = 0) :
    chunk_end_at tok content max_tokens pos = 0 := by
  unfold chunk_end_at
  rw [h]
  rfl

/-! ### The document loop: token bound and exact partition -/

/-- When the boundary algorithm yields an empty chunk while text remains, the
document loop makes no progress: no amount of fuel lets it return (the source
loops forever, appending empty splits). -/
theorem cdsLoop_stuck (tok : List Char → Nat) (content : List Char)
    (max_tokens pos : Nat) (hpos : pos < content.length)
    (hce : chunk_end_at tok content max_tokens pos = 0) :
    ∀ fuel, cdsLoop tok content max_tokens fuel pos = none := by
  intro fuel
  induction fuel with
  | zero => simp [cdsLoop, hpos]
  | succ n ih => simp [cdsLoop, hpos, hce, ih]

/-- Every split the document loop returns respects the token budget: its
recorded token count is at most `max_tokens`. -/
theorem cdsLoop_tokens_le (tok : List Char → Nat) (content : List Char)
    (max_tokens : Nat)
    (hmono : ∀ (s : List Char) (i j : Nat), i ≤ j → tok (s.take i) ≤ tok (s.take j)) :
    ∀ fuel pos splits, cdsLoop tok content max_tokens fuel pos = some splits →
      ∀ sp ∈ splits, sp.tokens ≤ max_tokens := by
  intro fuel
  induction fuel with
  | zero =>
    intro pos splits h sp hsp
    by_cases hpos : pos < content.length
    · simp [cdsLoop, hpos] at h
    · simp [cdsLoop, hpos] at h
      subst h
      simp at hsp
  | succ n ih =>
    intro pos splits h sp hsp
    by_cases hpos : pos < content.length
    · simp only [cdsLoop, if_pos hpos] at h
      rcases Option.map_eq_some'.mp h with ⟨rest, hrest, hsplits⟩
      subst hsplits
      rcases List.mem_cons.mp hsp with rfl | hsp'
      · by_cases hce : chunk_end_at tok content max_tokens pos = 0
        · rw [hce, Nat.add_zero] at hrest
          rw [cdsLoop_stuck tok content max_tokens pos hpos hce n] at hrest
          exact absurd hrest (by simp)
        · have hcs : find_optimal_chunk_size tok (content.drop pos) max_tokens ≠ 0 :=
            fun h0 => hce (chunk_end_at_of_size_zero tok content max_tokens pos h0)
          have h1 := find_optimal_chunk_size_fits tok (content.drop pos) max_tokens hcs
          have h2 := chunk_end_at_le_size tok content max_tokens pos
          exact le_trans (hmono (content.drop pos) _ _ h2) h1
      · exact ih _ _ hrest sp hsp'
    · simp [cdsLoop, hpos] at h
      subst h
      simp at hsp

/-- Partition invariant of the document loop: a returned tail of splits
starting at `pos` covers `[pos, len)` exactly — contents concatenate to the
rest of the document, offsets chain, every split records its own slice, the
first split starts at `pos` and the last stops at the end. -/
theorem cdsLoop_partition (tok : List Char → Nat) (content : List Char)
    (max_tokens : Nat) :
    ∀ fuel pos splits, pos ≤ content.length →
      cdsLoop tok content max_tokens fuel pos = some splits →
      (splits.map Split.content).flatten = content.drop pos ∧
      splits.Chain' (fun a b => a.stop = b.start) ∧
      (∀ sp ∈ splits, sp.start ≤ sp.stop ∧ sp.stop ≤ content.length ∧
        sp.content = (content.drop sp.start).take (sp.stop - sp.start)) ∧
      (∀ sp0, splits.head? = some sp0 → sp0.start = pos) ∧
      (∀ sp1, splits.getLast? = some sp1 → sp1.stop = content.length) ∧
      (splits = [] → pos = content.length) := by
  intro fuel
  induction fuel with
  | zero =>
    intro pos splits hle h
    by_cases hpos : pos < content.length
    · simp [cdsLoop, hpos] at h
    · simp [cdsLoop, hpos] at h
      subst h
      have : pos = content.length := by omega
      subst this
      simp [List.drop_length]
  | succ n ih =>
    intro pos splits hle h
    by_cases hpos : pos < content.length
    · simp only [cdsLoop, if_pos hpos] at h
      rcases Option.map_eq_some'.mp h with ⟨rest, hrest, hsplits⟩
      subst hsplits
      have hcele : pos + chunk_end_at tok content max_tokens pos ≤ content.length := by
        rcases chunk_end_at_le_rem tok content max_tokens pos with h' | h'
        · exact h'
        · omega
      obtain ⟨ihflat, ihchain, ihmem, ihhead, ihlast, ihnil⟩ := ih _ _ hcele hrest
      refine ⟨?_, ?_, ?_, ?_, ?_, ?_⟩
      · simp only [List.map_cons, List.flatten_cons, ihflat]
        rw [← List.drop_drop, List.take_append_drop]
      · cases rest with
        | nil => simp
        | cons r0 rs =>
          rw [List.chain'_cons]
          exact ⟨(ihhead r0 rfl).symm, ihchain⟩
      · intro sp hsp
        rcases List.mem_cons.mp hsp with rfl | hsp'
        · dsimp only
          refine ⟨by omega, hcele, ?_⟩
          simp
        · exact ihmem sp hsp'
      · intro sp0 hsp0
        simp only [List.head?_cons, Option.some.injEq] at hsp0
        subst hsp0
        rfl
      · intro sp1 hsp1
        cases rest with
        | nil =>
          simp only [List.getLast?_singleton, Option.some.injEq] at hsp1
          subst hsp1
          simpa using ihnil rfl
        | cons r0 rs =>
          rw [List.getLast?_cons_cons] at hsp1
          exact ihlast sp1 hsp1
      · intro hcontra
        exact absurd hcontra (by simp)
    · simp [cdsLoop, hpos] at h
      subst h
      have : pos = content.length := by omega
      subst this
      simp [List.drop_length]

/-- A tokenizer counting characters is monotone in prefix length (used to
instantiate the monotonicity hypothesis in witnesses). -/
theorem length_take_mono (s : List Char) (i j : Nat) (h : i ≤ j) :
    (s.take i).length ≤ (s.take j).length := by
  simp only [List.length_take]
  omega

/-- C2. For every text, every `max_tokens ≥ 1` and every tokenizer whose token
count is non-decreasing in slice length, every chunk that
`create_document_splits` returns has a recorded token count of at most
`max_tokens` (in fact with no exception at all: the run in which a single
atomic unit exceeds the budget never returns a chunk list, since the source
loop then stops advancing). -/
theorem create_document_splits_token_bound (tok : List Char → Nat)
    (content : List Char) (max_tokens : Nat) (splits : List Split)
    (hmax : 1 ≤ max_tokens)
    (hmono : ∀ (s : List Char) (i j : Nat), i ≤ j → tok (s.take i) ≤ tok (s.take j))
    (h : create_document_splits tok content max_tokens = some splits) :
    ∀ sp ∈ splits, sp.tokens ≤ max_tokens :=
  cdsLoop_tokens_le tok content max_tokens hmono _ _ _ h

/-- Witness for C2 at the character-counting tokenizer on the text `"ab"`
with budget `2`. -/
theorem create_document_splits_token_bound_witness :
    (1 ≤ 2) ∧
    (∀ (s : List Char) (i j : Nat), i ≤ j → (s.take i).length ≤ (s.take j).length) ∧
    create_document_splits List.length ['a', 'b'] 2 = some [⟨0, 2, 2, ['a', 'b']⟩] ∧
    (∀ sp ∈ [(⟨0, 2, 2, ['a', 'b']⟩ : Split)], sp.tokens ≤ 2) :=
  ⟨by omega, length_take_mono, by rfl,
    create_document_splits_token_bound List.length ['a', 'b'] 2 _
      (by omega) length_take_mono (by rfl)⟩

/-- C3. For every text, every `max_tokens ≥ 1` and every tokenizer that is
non-decreasing in slice length, the chunks that `create_document_splits`
returns exactly partition `[0, len(content))` in order: contents concatenate
to the document, offsets chain with no gap or overlap, each chunk is the slice
of the document its offsets denote, the first chunk starts at `0` and the last
stops at `len(content)`. -/
theorem create_document_splits_partition (tok : List Char → Nat)
    (content : List Char) (max_tokens : Nat) (splits : List Split)
    (hmax : 1 ≤ max_tokens)
    (hmono : ∀ (s : List Char) (i j : Nat), i ≤ j → tok (s.take i) ≤ tok (s.take j))
    (h : create_document_splits tok content max_tokens = some splits) :
    (splits.map Split.content).flatten = content ∧
    splits.Chain' (fun a b => a.stop = b.start) ∧
    (∀ sp ∈ splits, sp.start ≤ sp.stop ∧ sp.stop ≤ content.length ∧
      sp.content = (content.drop sp.start).take (sp.stop - sp.start)) ∧
    (∀ sp0, splits.head? = some sp0 → sp0.start = 0) ∧
    (∀ sp1, splits.getLast? = some sp1 → sp1.stop = content.length) := by
  obtain ⟨h1, h2, h3, h4, h5, _⟩ :=
    cdsLoop_partition tok content max_tokens _ 0 splits (Nat.zero_le _) h
  exact ⟨by simpa using h1, h2, h3, h4, h5⟩

/-- Witness for C3 at the character-counting tokenizer on the text `"ab c"`
with budget `2` (three chunks, the middle one ending at a natural break). -/
theorem create_document_splits_partition_witness :
    (1 ≤ 2) ∧
    (∀ (s : List Char) (i j : Nat), i ≤ j → (s.take i).length ≤ (s.take j).length) ∧
    create_document_splits List.length ['a', 'b', ' ', 'c'] 2 =
      some [⟨0, 2, 2, ['a', 'b']⟩, ⟨2, 3, 1, [' ']⟩, ⟨3, 4, 1, ['c']⟩] ∧
    (([(⟨0, 2, 2, ['a', 'b']⟩ : Split), ⟨2, 3, 1, [' ']⟩, ⟨3, 4, 1, ['c']⟩].map
        Split.content).flatten = ['a', 'b', ' ', 'c'] ∧
      [(⟨0, 2, 2, ['a', 'b']⟩ : Split), ⟨2, 3, 1, [' ']⟩, ⟨3, 4, 1, ['c']⟩].Chain'
        (fun a b => a.stop = b.start) ∧
      (∀ sp ∈ [(⟨0, 2, 2, ['a', 'b']⟩ : Split), ⟨2, 3, 1, [' ']⟩, ⟨3, 4, 1, ['c']⟩],
        sp.start ≤ sp.stop ∧ sp.stop ≤ (['a', 'b', ' ', 'c'] : List Char).length ∧
        sp.content = ((['a', 'b', ' ', 'c'] : List Char).drop sp.start).take (sp.stop - sp.start)) ∧
      (∀ sp0, [(⟨0, 2, 2, ['a', 'b']⟩ : Split), ⟨2, 3, 1, [' ']⟩, ⟨3, 4, 1, ['c']⟩].head? =
        some sp0 → sp0.start = 0) ∧
      (∀ sp1, [(⟨0, 2, 2, ['a', 'b']⟩ : Split), ⟨2, 3, 1, [' ']⟩, ⟨3, 4, 1, ['c']⟩].getLast? =
        some sp1 → sp1.stop = (['a', 'b', ' ', 'c'] : List Char).length)) :=
  ⟨by omega, length_take_mono, by rfl,
    create_document_splits_partition List.length ['a', 'b', ' ', 'c'] 2 _
      (by omega) length_take_mono (by rfl)⟩

/-! ### Nearest-centroid encoding: argmin facts and claims about `encode_vectors` -/

/-- The first-minimum index is a valid index. -/
theorem argminIdx_lt (l : List ℚ) (h : l ≠ []) : argminIdx l < l.length := by
  induction l with
  | nil => simp at h
  | cons x xs ih =>
    simp only [argminIdx]
    split_ifs with h1 h2
    · simp
    · simp
    · have := ih h1
      simp only [List.length_cons]
      omega

/-- The first-minimum index attains the minimum value. -/
theorem argminIdx_min (l : List ℚ) : ∀ j < l.length, l.getD (argminIdx l) 0 ≤ l.getD j 0 := by
  induction l with
  | nil => intro j hj; simp at hj
  | cons x xs ih =>
    intro j hj
    simp only [argminIdx]
    split_ifs with h1 h2
    · subst h1
      simp only [List.length_cons, List.length_nil] at hj
      have : j = 0 := by omega
      subst this
      simp
    · cases j with
      | zero => simp
      | succ k =>
        simp only [List.getD_cons_zero, List.getD_cons_succ]
        exact le_trans h2 (ih k (by simpa using hj))
    · cases j with
      | zero =>
        simp only [List.getD_cons_zero, List.getD_cons_succ]
        exact le_of_not_le h2
      | succ k =>
        simp only [List.getD_cons_succ]
        exact ih k (by simpa using hj)

/-- `predict` returns a valid centre index. -/
theorem predictIdx_lt (centers : List (List ℚ)) (x : List ℚ) (h : centers ≠ []) :
    predictIdx centers x < centers.length := by
  unfold predictIdx
  have := argminIdx_lt (centers.map fun c => sqdistQ x c) (by simpa using h)
  simpa using this

/-- `predict` returns a centre of minimum squared distance. -/
theorem predictIdx_min (centers : List (List ℚ)) (x : List ℚ) (h : centers ≠ []) :
    ∀ j < centers.length,
      sqdistQ x (centers.getD (predictIdx centers x) []) ≤ sqdistQ x (centers.getD j []) := by
  intro j hj
  have hlt := predictIdx_lt centers x h
  have hmin := argminIdx_min (centers.map fun c => sqdistQ x c)
    j (by simpa using hj)
  unfold predictIdx at hlt hmin ⊢
  rw [List.getD_eq_getElem _ _ (by simpa using hlt),
      List.getD_eq_getElem _ _ (by simpa using hj),
      List.getElem_map, List.getElem_map] at hmin
  rw [List.getD_eq_getElem _ _ hlt, List.getD_eq_getElem _ _ hj]
  exact hmin

/-- Under a trained quantizer state, `encode_vectors` succeeds with exactly
the per-row nearest-centroid codes. -/
theorem encode_vectors_ok (st : Store) (vectors : List (List ℚ)) (s : Nat)
    (hM : 1 ≤ st.n_segments) (hs : st.segment_size = some s)
    (hcb : st.n_segments ≤ st.codebooks.length) :
    encode_vectors st vectors = .ok (vectors.map fun v =>
      (List.range st.n_segments).map fun m =>
        predictIdx (st.codebooks.getD m []) (segSlice v.length s st.n_segments m v)) := by
  unfold encode_vectors
  rw [if_neg (by omega), hs]
  dsimp only
  rw [if_neg (by omega)]

/-- C9. For every trained store — one codebook per segment, each holding
`n_clusters` centres — and every batch of vectors of the training dimension,
`encode_vectors` returns one code per input vector; each code has exactly
`n_segments` entries, every entry lies in `[0, n_clusters)`, and entry `m`
indexes a centroid of codebook `m` at minimum Euclidean distance from the
vector's segment-`m` slice. -/
theorem encode_vectors_code_shape (st : Store) (vectors : List (List ℚ))
    (codes : List (List Nat)) (s D : Nat)
    (hM : 1 ≤ st.n_segments) (hKpos : 1 ≤ st.n_clusters)
    (hs : st.segment_size = some s) (hsD : s = D / st.n_segments)
    (hdim : ∀ v ∈ vectors, v.length = D)
    (hcb : st.codebooks.length = st.n_segments)
    (hK : ∀ cb ∈ st.codebooks, cb.length = st.n_clusters)
    (h : encode_vectors st vectors = .ok codes) :
    codes.length = vectors.length ∧
    (∀ code ∈ codes, code.length = st.n_segments ∧ ∀ c ∈ code, c < st.n_clusters) ∧
    (∀ i, i < vectors.length → ∀ m, m < st.n_segments → ∀ j, j < st.n_clusters →
      euclidQ (segSlice (vectors.getD i []).length s st.n_segments m (vectors.getD i []))
          ((st.codebooks.getD m []).getD ((codes.getD i []).getD m 0) [])
        ≤ euclidQ (segSlice (vectors.getD i []).length s st.n_segments m (vectors.getD i []))
          ((st.codebooks.getD m []).getD j [])) := by
  rw [encode_vectors_ok st vectors s hM hs (le_of_eq hcb.symm)] at h
  simp only [Except.ok.injEq] at h
  subst h
  have hcblen : ∀ m, m < st.n_segments → (st.codebooks.getD m []).length = st.n_clusters := by
    intro m hm
    have hmlt : m < st.codebooks.length := by omega
    rw [List.getD_eq_getElem _ _ hmlt]
    exact hK _ (List.getElem_mem hmlt)
  have hcbne : ∀ m, m < st.n_segments → st.codebooks.getD m [] ≠ [] := by
    intro m hm hnil
    have := hcblen m hm
    rw [hnil] at this
    simp only [List.length_nil] at this
    omega
  refine ⟨by simp, ?_, ?_⟩
  · intro code hcode
    rcases List.mem_map.mp hcode with ⟨v, hv, rfl⟩
    refine ⟨by simp, ?_⟩
    intro c hc
    rcases List.mem_map.mp hc with ⟨m, hm, rfl⟩
    have hm' := List.mem_range.mp hm
    have := predictIdx_lt (st.codebooks.getD m []) (segSlice v.length s st.n_segments m v)
      (hcbne m hm')
    rw [hcblen m hm'] at this
    exact this
  · intro i hi m hm j hj
    rw [List.getD_eq_getElem vectors ([] : List ℚ) hi]
    have hilen : i < (vectors.map fun v =>
        (List.range st.n_segments).map fun m =>
          predictIdx (st.codebooks.getD m []) (segSlice v.length s st.n_segments m v)).length := by
      simpa using hi
    rw [List.getD_eq_getElem _ _ hilen, List.getElem_map]
    have hmlen : m < ((List.range st.n_segments).map fun m =>
        predictIdx (st.codebooks.getD m [])
          (segSlice vectors[i].length s st.n_segments m vectors[i])).length := by
      simpa using hm
    rw [List.getD_eq_getElem _ _ hmlen, List.getElem_map, List.getElem_range]
    have hmin := predictIdx_min (st.codebooks.getD m [])
      (segSlice vectors[i].length s st.n_segments m vectors[i])
      (hcbne m hm) j (by rw [hcblen m hm]; exact hj)
    unfold euclidQ
    exact Real.sqrt_le_sqrt (by exact_mod_cast hmin)

/-- A concrete trained store for witnessing the encoding claims: two segments
of one coordinate each, two centres per segment. -/
def trained_store_ex : Store :=
  ⟨2, 2, some 1, [[[0], [10]], [[0], [7]]], [], []⟩

/-- Witness for C9: on `trained_store_ex`, the batch `[[1,2],[9,6]]` encodes
to `[[0,0],[1,1]]`, and the theorem's hypotheses all hold there. -/
theorem encode_vectors_code_shape_witness :
    (1 ≤ trained_store_ex.n_segments) ∧ (1 ≤ trained_store_ex.n_clusters) ∧
    trained_store_ex.segment_size = some 1 ∧ (1 = 2 / trained_store_ex.n_segments) ∧
    (∀ v ∈ [[(1 : ℚ), 2], [9, 6]], v.length = 2) ∧
    trained_store_ex.codebooks.length = trained_store_ex.n_segments ∧
    (∀ cb ∈ trained_store_ex.codebooks, cb.length = trained_store_ex.n_clusters) ∧
    encode_vectors trained_store_ex [[(1 : ℚ), 2], [9, 6]] = .ok [[0, 0], [1, 1]] ∧
    (([[0, 0], [1, 1]] : List (List Nat)).length = ([[(1 : ℚ), 2], [9, 6]] : List (List ℚ)).length ∧
      (∀ code ∈ ([[0, 0], [1, 1]] : List (List Nat)),
        code.length = trained_store_ex.n_segments ∧
        ∀ c ∈ code, c < trained_store_ex.n_clusters) ∧
      (∀ i, i < ([[(1 : ℚ), 2], [9, 6]] : List (List ℚ)).length →
        ∀ m, m < trained_store_ex.n_segments →
        ∀ j, j < trained_store_ex.n_clusters →
        euclidQ (segSlice (([[(1 : ℚ), 2], [9, 6]] : List (List ℚ)).getD i []).length 1
            trained_store_ex.n_segments m (([[(1 : ℚ), 2], [9, 6]] : List (List ℚ)).getD i []))
            ((trained_store_ex.codebooks.getD m []).getD
              ((([[0, 0], [1, 1]] : List (List Nat)).getD i []).getD m 0) [])
          ≤ euclidQ (segSlice (([[(1 : ℚ), 2], [9, 6]] : List (List ℚ)).getD i []).length 1
            trained_store_ex.n_segments m (([[(1 : ℚ), 2], [9, 6]] : List (List ℚ)).getD i []))
            ((trained_store_ex.codebooks.getD m []).getD j []))) :=
  ⟨by decide, by decide, rfl, rfl, by decide, rfl, by decide,
    by norm_num [encode_vectors, trained_store_ex, predictIdx, argminIdx, sqdistQ, segSlice,
      List.range_succ],
    encode_vectors_code_shape trained_store_ex [[(1 : ℚ), 2], [9, 6]] [[0, 0], [1, 1]] 1 2
      (by decide) (by decide) rfl rfl (by decide) rfl (by decide)
      (by norm_num [encode_vectors, trained_store_ex, predictIdx, argminIdx, sqdistQ, segSlice,
        List.range_succ])⟩

/-- C10. Encoding is deterministic and depends only on the quantizer part of
the state: two stores agreeing on `n_segments`, `segment_size` and the
codebooks encode every batch identically, whatever their other fields. -/
theorem encode_vectors_deterministic (st1 st2 : Store) (vectors : List (List ℚ))
    (h1 : st1.n_segments = st2.n_segments) (h2 : st1.segment_size = st2.segment_size)
    (h3 : st1.codebooks = st2.codebooks) :
    encode_vectors st1 vectors = encode_vectors st2 vectors := by
  unfold encode_vectors
  rw [h1, h2, h3]

/-- A second store sharing `trained_store_ex`'s quantizer but differing in
every other field. -/
def trained_store_ex2 : Store :=
  ⟨2, 5, some 1, [[[0], [10]], [[0], [7]]], [[0, 0]], [['x']]⟩

/-- Witness for C10 at two genuinely different stores with the same quantizer. -/
theorem encode_vectors_deterministic_witness :
    trained_store_ex ≠ trained_store_ex2 ∧
    trained_store_ex.n_segments = trained_store_ex2.n_segments ∧
    trained_store_ex.segment_size = trained_store_ex2.segment_size ∧
    trained_store_ex.codebooks = trained_store_ex2.codebooks ∧
    encode_vectors trained_store_ex [[(3 : ℚ), 4]] =
      encode_vectors trained_store_ex2 [[(3 : ℚ), 4]] :=
  ⟨by decide, rfl, rfl, rfl,
    encode_vectors_deterministic trained_store_ex trained_store_ex2 [[(3 : ℚ), 4]] rfl rfl rfl⟩

/-- The state `__init__(n_segments=4, n_clusters=32)` leaves behind: no
training has occurred, `segment_size` is `None` and the codebooks are empty. -/
def untrained_store : Store := ⟨4, 32, none, [], [], []⟩

/-- Counterexample to C7: encoding with the untrained store fails with a
`TypeError` (from `m * self.segment_size` with `segment_size = None`), which
is not the `NotTrained` error kind the claim names. -/
theorem encode_untrained_counterexample :
    encode_vectors untrained_store [[1, 2, 3, 4]] = .error .typeError ∧
    PyErr.typeError ≠ PyErr.notTrained :=
  ⟨by rfl, by decide⟩

/-- C7 amended. Encoding with an untrained store (`segment_size` still `None`)
does fail on every batch — but with Python's `TypeError`, not with a
distinguished `NotTrained` error kind, which the source never defines;
`n_segments ≥ 1` is required since with `n_segments = 0` the encoding loop
body never runs and the call succeeds with empty codes. -/
theorem encode_untrained_raises (st : Store) (vectors : List (List ℚ))
    (hM : 1 ≤ st.n_segments) (hs : st.segment_size = none) :
    encode_vectors st vectors = .error .typeError := by
  unfold encode_vectors
  rw [if_neg (by omega), hs]

/-- Witness for the amended C7 at the `__init__` state on a one-vector batch. -/
theorem encode_untrained_raises_witness :
    (1 ≤ untrained_store.n_segments) ∧ untrained_store.segment_size = none ∧
    encode_vectors untrained_store [[5]] = .error .typeError :=
  ⟨by decide, rfl, encode_untrained_raises untrained_store [[5]] (by decide) rfl⟩

/-! ### The two segmentations and the distance table -/

/-- C5 fails on the code: at dimension `3` with `2` segments, training and
encoding slice `[1,2,3]` as `[[1],[2,3]]` (size `floor(3/2) = 1`, last segment
absorbing the remainder) while `_split_vector` — `np.array_split` — produces
`[[1,2],[3]]` (remainder given to the first segments). The two segmentations
the pipeline uses therefore differ whenever `n_segments` does not divide the
dimension, and the query-side segment dimensions no longer match the
centroid dimensions. -/
theorem train_split_vs_array_split :
    train_segmentation [(1 : ℚ), 2, 3] 2 = [[1], [2, 3]] ∧
    _split_vector trained_store_ex [(1 : ℚ), 2, 3] = [[1, 2], [3]] ∧
    train_segmentation [(1 : ℚ), 2, 3] 2 ≠ _split_vector trained_store_ex [(1 : ℚ), 2, 3] := by
  refine ⟨?_, ?_, ?_⟩
  · norm_num [train_segmentation, segSlice, List.range_succ]
  · norm_num [_split_vector, trained_store_ex, array_split, splitSizes, List.range_succ]
  · rw [show train_segmentation [(1 : ℚ), 2, 3] 2 = [[1], [2, 3]] by
        norm_num [train_segmentation, segSlice, List.range_succ],
      show _split_vector trained_store_ex [(1 : ℚ), 2, 3] = [[1, 2], [3]] by
        norm_num [_split_vector, trained_store_ex, array_split, splitSizes, List.range_succ]]
    norm_num

/-- A minimal trained store for the distance-table claims: one segment, one
cluster, the single centroid at the origin. -/
def c4_store : Store := ⟨1, 1, some 1, [[[0]]], [], []⟩

/-- `splitSizes` produces one piece per requested size. -/
theorem splitSizes_length {a : Type} (ns : List Nat) :
    ∀ v : List a, (splitSizes ns v).length = ns.length := by
  induction ns with
  | nil => intro v; rfl
  | cons n ns ih => intro v; simp [splitSizes, ih]

/-- `np.array_split(v, M)` always produces exactly `M` pieces. -/
theorem array_split_length {a : Type} (v : List a) (M : Nat) :
    (array_split v M).length = M := by
  unfold array_split
  rw [splitSizes_length, List.length_map, List.length_range]

/-- `_split_vector` always produces `n_segments` segments. -/
theorem _split_vector_length (st : Store) (v : List ℚ) :
    (_split_vector st v).length = st.n_segments :=
  array_split_length v st.n_segments

/-- When every codebook-`m` centroid has the dimension of the query's
segment-`m` slice (and the codebooks are well-formed), the dimension checks
of `compute_distance_table` all pass and the table is returned. -/
theorem compute_distance_table_ok (st : Store) (query : List ℚ)
    (hcb : st.codebooks.length = st.n_segments)
    (hK : ∀ cb ∈ st.codebooks, cb.length = st.n_clusters)
    (hdim : ∀ m < st.n_segments, ∀ c ∈ st.codebooks.getD m [],
      c.length = ((_split_vector st query).getD m []).length) :
    compute_distance_table st query = .ok (distance_table_entries st query) := by
  unfold compute_distance_table
  rw [if_pos]
  intro qc hqc
  obtain ⟨i, hi, hqceq⟩ := List.getElem_of_mem hqc
  rw [List.getElem_zip] at hqceq
  rw [List.length_zip, _split_vector_length, hcb, min_self] at hi
  subst hqceq
  constructor
  · intro c hc
    have hsegs : i < (_split_vector st query).length := by rw [_split_vector_length]; omega
    have hcbs : i < st.codebooks.length := by omega
    have := hdim i hi c (by rw [List.getD_eq_getElem _ _ hcbs]; exact hc)
    rw [List.getD_eq_getElem _ _ hsegs] at this
    exact this
  · exact hK _ (List.getElem_mem (by omega))

/-- Counterexample to C4: for the query `[4]` against `c4_store`, the table
entry is the Euclidean distance `4`, not the squared Euclidean distance `16`
the claim states — sklearn's `euclidean_distances` defaults to non-squared. -/
theorem compute_distance_table_not_squared :
    compute_distance_table c4_store [(4 : ℚ)] = .ok [[(4 : ℝ)]] ∧
    spec_squared_table c4_store [(4 : ℚ)] = [[(16 : ℝ)]] ∧
    compute_distance_table c4_store [(4 : ℚ)] ≠
      .ok (spec_squared_table c4_store [(4 : ℚ)]) := by
  have h1 : compute_distance_table c4_store [(4 : ℚ)] = .ok [[(4 : ℝ)]] := by
    unfold compute_distance_table
    rw [if_pos (by decide)]
    have h : distance_table_entries c4_store [(4 : ℚ)] = [[Real.sqrt (((16 : ℚ) : ℝ))]] := by
      norm_num [distance_table_entries, c4_store, _split_vector, array_split, splitSizes,
        euclidQ, sqdistQ, List.range_succ]
    rw [h, show ((16 : ℚ) : ℝ) = (4 : ℝ) ^ 2 by norm_num,
      Real.sqrt_sq (by norm_num : (0 : ℝ) ≤ 4)]
  have h2 : spec_squared_table c4_store [(4 : ℚ)] = [[(16 : ℝ)]] := by
    norm_num [spec_squared_table, c4_store, _split_vector, array_split, splitSizes,
      sqdistQ, List.range_succ]
  refine ⟨h1, h2, ?_⟩
  rw [h1, h2]
  norm_num

/-- The successfully filled table equals the specification-side matrix of
(non-squared) Euclidean distances. -/
theorem distance_table_entries_eq_spec (st : Store) (query : List ℚ)
    (hcb : st.codebooks.length = st.n_segments)
    (hK : ∀ cb ∈ st.codebooks, cb.length = st.n_clusters) :
    distance_table_entries st query = spec_euclid_table st query := by
  unfold distance_table_entries spec_euclid_table
  apply List.ext_getElem
  · simp
  intro m h1 h2
  simp only [List.getElem_map, List.getElem_range]
  have hm : m < st.n_segments := by simpa using h1
  have hmcb : m < st.codebooks.length := by omega
  rw [dif_pos hmcb]
  have hlen : st.codebooks[m].length = st.n_clusters := hK _ (List.getElem_mem hmcb)
  apply List.ext_getElem
  · simpa [List.get_eq_getElem] using hlen
  intro j hj1 hj2
  have hjK : j < st.n_clusters := by simpa using hj2
  simp only [List.getElem_map, List.getElem_range, List.get_eq_getElem]
  have hjlen : j < st.codebooks[m].length := by rw [hlen]; exact hjK
  rw [List.getD_eq_getElem st.codebooks ([] : List (List ℚ)) hmcb,
      List.getD_eq_getElem _ ([] : List ℚ) hjlen]

/-- C4 amended. For every store whose codebooks are well-formed (one per
segment, `n_clusters` centres each) and whose codebook-`m` centroids have the
dimension of the query's segment-`m` slice — the condition sklearn's
`euclidean_distances` enforces, raising `ValueError` otherwise —
`compute_distance_table` returns the `n_segments × n_clusters` matrix whose
entry `(m, j)` is the *(non-squared)* Euclidean distance between the query's
segment-`m` slice (per `_split_vector`) and centroid `j` of codebook `m`. -/
theorem compute_distance_table_euclid (st : Store) (query : List ℚ)
    (hcb : st.codebooks.length = st.n_segments)
    (hK : ∀ cb ∈ st.codebooks, cb.length = st.n_clusters)
    (hdim : ∀ m < st.n_segments, ∀ c ∈ st.codebooks.getD m [],
      c.length = ((_split_vector st query).getD m []).length) :
    compute_distance_table st query = .ok (spec_euclid_table st query) := by
  rw [compute_distance_table_ok st query hcb hK hdim,
    distance_table_entries_eq_spec st query hcb hK]

/-- Witness for the amended C4 at `c4_store` with query `[4]`. -/
theorem compute_distance_table_euclid_witness :
    c4_store.codebooks.length = c4_store.n_segments ∧
    (∀ cb ∈ c4_store.codebooks, cb.length = c4_store.n_clusters) ∧
    (∀ m < c4_store.n_segments, ∀ c ∈ c4_store.codebooks.getD m [],
      c.length = ((_split_vector c4_store [(4 : ℚ)]).getD m []).length) ∧
    compute_distance_table c4_store [(4 : ℚ)] =
      .ok (spec_euclid_table c4_store [(4 : ℚ)]) :=
  ⟨rfl, by decide, by decide,
    compute_distance_table_euclid c4_store [(4 : ℚ)] rfl (by decide) (by decide)⟩

/-! ### Non-termination of the pre-training chunker on short texts -/

/-- On the five-character text `"hello"`, one pass of the sliding-window loop
at the default `chunk_size=256, overlap=64` ends after a single iteration with
the single chunk `"hello"` (for any remaining fuel). -/
theorem createChunksLoop_hello_256 (f : Nat) :
    createChunksLoop ['h', 'e', 'l', 'l', 'o'] 256 64 (f + 1) 0 [] =
      some [['h', 'e', 'l', 'l', 'o']] := by
  simp only [createChunksLoop]
  norm_num
  rw [show pyStrip (pySlice ['h', 'e', 'l', 'l', 'o'] 0 256) = ['h', 'e', 'l', 'l', 'o'] by decide]
  rw [if_neg (show ¬(['h', 'e', 'l', 'l', 'o'] = ([] : List Char)) by decide)]
  cases f with
  | zero => simp only [createChunksLoop]; norm_num
  | succ g => simp only [createChunksLoop]; norm_num

/-- The same on the fallback parameters `chunk_size=128, overlap=32`: again a
single chunk, so the fallback cannot increase the chunk count. -/
theorem createChunksLoop_hello_128 (f : Nat) :
    createChunksLoop ['h', 'e', 'l', 'l', 'o'] 128 32 (f + 1) 0 [] =
      some [['h', 'e', 'l', 'l', 'o']] := by
  simp only [createChunksLoop]
  norm_num
  rw [show pyStrip (pySlice ['h', 'e', 'l', 'l', 'o'] 0 128) = ['h', 'e', 'l', 'l', 'o'] by decide]
  rw [if_neg (show ¬(['h', 'e', 'l', 'l', 'o'] = ([] : List Char)) by decide)]
  cases f with
  | zero => simp only [createChunksLoop]; norm_num
  | succ g => simp only [createChunksLoop]; norm_num

/-- With `n_clusters = 32`, the chunking of `"hello"` yields one chunk at the
default parameters and one chunk at the fallback parameters; since
`max(128, 5 // 33) = 128` the fallback re-invokes itself with its own
parameters and never returns, whatever the recursion and loop budgets. -/
theorem createChunksRec_hello (r : Nat) :
    ∀ loopFuel, createChunksRec 32 ['h', 'e', 'l', 'l', 'o'] loopFuel r 256 64 = none ∧
      createChunksRec 32 ['h', 'e', 'l', 'l', 'o'] loopFuel r 128 32 = none := by
  induction r with
  | zero =>
    intro lf
    constructor
    · simp only [createChunksRec]
      cases lf with
      | zero => norm_num [createChunksLoop]
      | succ f => rw [createChunksLoop_hello_256 f]; norm_num
    · simp only [createChunksRec]
      cases lf with
      | zero => norm_num [createChunksLoop]
      | succ f => rw [createChunksLoop_hello_128 f]; norm_num
  | succ r ih =>
    intro lf
    constructor
    · simp only [createChunksRec]
      cases lf with
      | zero => norm_num [createChunksLoop]
      | succ f =>
        rw [createChunksLoop_hello_256 f]
        norm_num
        exact (ih (f + 1)).2
    · simp only [createChunksRec]
      cases lf with
      | zero => norm_num [createChunksLoop]
      | succ f =>
        rw [createChunksLoop_hello_128 f]
        norm_num
        exact (ih (f + 1)).2

/-- C8 fails on the code: at the `__init__` defaults (`n_clusters = 32`),
`_create_chunks("hello")` does not terminate for any fuel — the chunk-count
fallback recurses with `chunk_size = max(128, len // (n_clusters+1)) = 128`,
obtains a single chunk again, and recurses forever with identical arguments
(a `RecursionError` in Python), instead of terminating with a finite chunk
sequence as the claim states. -/
theorem create_chunks_never_returns_short :
    ∀ loopFuel recFuel,
      _create_chunks untrained_store ['h', 'e', 'l', 'l', 'o'] loopFuel recFuel = none := by
  intro lf rf
  unfold _create_chunks
  exact (createChunksRec_hello rf lf).1

/-! ### `process_document` always retrains -/

/-- A concrete k-means stand-in for counterexamples: `K` centres at the
origin, whatever the training points. -/
def fitC (k : Nat) (_ : List (List ℚ)) : List (List ℚ) := List.replicate k [0]

/-- A concrete embedder for counterexamples: every chunk maps to `[5]`. -/
def embedC (_ : List Char) : List ℚ := [5]

/-- A store whose quantizer is already trained (nonempty codebooks), about to
process a further document. -/
def pre_store : Store := ⟨1, 1, some 1, [[[9]]], [[0]], []⟩

/-- The state `process_document` leaves behind when `pre_store` processes the
document `"a"` with `fitC`/`embedC`: the codebooks have been retrained from
the new document's own embeddings. -/
def post_store : Store := ⟨1, 1, some 1, [[[0]]], [[0]], [['a']]⟩

/-- Counterexample to C6: `pre_store` is trained, yet processing the document
`"a"` replaces its codebooks — `process_document` clears `self.codebooks`
before embedding, so the training branch of `_create_embeddings` runs on
every call and the pre-existing quantizer is never the one in effect. -/
theorem process_document_retrains_counterexample :
    pre_store.codebooks ≠ [] ∧
    process_document fitC embedC pre_store ['a'] 2 1 =
      some (.ok (post_store, [['a']], [[5]])) ∧
    post_store.codebooks ≠ pre_store.codebooks := by
  refine ⟨by norm_num [pre_store], ?_, by norm_num [pre_store, post_store]⟩
  have hch : _create_chunks ⟨1, 1, some 1, [], [], []⟩ ['a'] 2 1 = some [['a']] := by decide
  norm_num [process_document, pre_store, hch, _create_embeddings, train_product_quantizer,
    encode_vectors, predictIdx, argminIdx, sqdistQ, segSlice, fitC, embedC, post_store,
    List.range_succ]

/-- With empty codebooks the segment size plays no role in
`_create_embeddings`: training overwrites it before it is ever read. -/
theorem create_embeddings_untrained_frame (fit : Nat → List (List ℚ) → List (List ℚ))
    (embed : List Char → List ℚ) (chunks : List (List Char)) (M K : Nat)
    (ss1 ss2 : Option Nat) (ch : List (List Char)) :
    _create_embeddings fit embed ⟨M, K, ss1, [], [], ch⟩ chunks =
      _create_embeddings fit embed ⟨M, K, ss2, [], [], ch⟩ chunks := by
  unfold _create_embeddings train_product_quantizer
  simp

/-- C6 amended. `process_document` never reuses an existing quantizer: it
clears the codebooks before embedding, so its entire result is independent of
whatever quantizer state the store held — two stores agreeing only on
`n_segments` and `n_clusters` process every document identically, and the
codebooks in effect during encoding are always the ones trained from the
current document's embeddings. -/
theorem process_document_ignores_prior_quantizer
    (fit : Nat → List (List ℚ) → List (List ℚ)) (embed : List Char → List ℚ)
    (content : List Char) (loopFuel recFuel : Nat) (st1 st2 : Store)
    (h1 : st1.n_segments = st2.n_segments) (h2 : st1.n_clusters = st2.n_clusters) :
    process_document fit embed st1 content loopFuel recFuel =
      process_document fit embed st2 content loopFuel recFuel := by
  obtain ⟨M1, K1, ss1, cb1, pq1, ch1⟩ := st1
  obtain ⟨M2, K2, ss2, cb2, pq2, ch2⟩ := st2
  simp only at h1 h2
  subst h1
  subst h2
  unfold process_document _create_chunks
  simp only
  cases hc : createChunksRec K1 content loopFuel recFuel 256 64 with
  | none => rfl
  | some chunks =>
    dsimp only
    rw [create_embeddings_untrained_frame fit embed chunks M1 K1 ss1 ss2 chunks]

/-- A store with the same `n_segments`/`n_clusters` as `pre_store` but a
different quantizer and history. -/
def other_store : Store := ⟨1, 1, none, [[[3]]], [], [['z']]⟩

/-- Witness for the amended C6: `pre_store` and `other_store` hold different
codebooks yet process the document `"a"` identically. -/
theorem process_document_ignores_prior_quantizer_witness :
    pre_store.n_segments = other_store.n_segments ∧
    pre_store.n_clusters = other_store.n_clusters ∧
    pre_store.codebooks ≠ other_store.codebooks ∧
    process_document fitC embedC pre_store ['a'] 2 1 =
      process_document fitC embedC other_store ['a'] 2 1 :=
  ⟨rfl, rfl, by norm_num [pre_store, other_store],
    process_document_ignores_prior_quantizer fitC embedC ['a'] 2 1 pre_store other_store rfl rfl⟩

/-! ### The approximate nearest-neighbor query -/

/-- `argsort_stable` is a permutation of the index range, so it has as many
entries as the distance list. -/
theorem argsort_stable_length (l : List ℝ) : (argsort_stable l).length = l.length := by
  unfold argsort_stable
  rw [List.length_insertionSort, List.length_range]

/-- `argsort_stable` lists the indices in ascending order of their values,
ties in ascending order of index. -/
theorem argsort_stable_pairwise (l : List ℝ) :
    (argsort_stable l).Pairwise
      (fun i j => l.getD i 0 < l.getD j 0 ∨ (l.getD i 0 = l.getD j 0 ∧ i ≤ j)) := by
  unfold argsort_stable
  haveI ht : IsTotal Nat
      (fun i j => l.getD i 0 < l.getD j 0 ∨ (l.getD i 0 = l.getD j 0 ∧ i ≤ j)) := by
    constructor
    intro i j
    rcases lt_trichotomy (l.getD i 0) (l.getD j 0) with h | h | h
    · exact Or.inl (Or.inl h)
    · rcases Nat.le_total i j with hij | hij
      · exact Or.inl (Or.inr ⟨h, hij⟩)
      · exact Or.inr (Or.inr ⟨h.symm, hij⟩)
    · exact Or.inr (Or.inl h)
  haveI htr : IsTrans Nat
      (fun i j => l.getD i 0 < l.getD j 0 ∨ (l.getD i 0 = l.getD j 0 ∧ i ≤ j)) := by
    constructor
    intro a b c hab hbc
    rcases hab with h1 | ⟨h1, h1'⟩ <;> rcases hbc with h2 | ⟨h2, h2'⟩
    · exact Or.inl (h1.trans h2)
    · exact Or.inl (h2 ▸ h1)
    · exact Or.inl (h1 ▸ h2)
    · exact Or.inr ⟨h1.trans h2, h1'.trans h2'⟩
  exact List.sorted_insertionSort _ _

/-- `argsort_stable` conforms to the documented `np.argsort` contract: it is
one admissible implementation, used to discharge the sort hypothesis at
concrete inputs. -/
theorem argsort_stable_spec : IsArgsortSpec argsort_stable := by
  intro l
  constructor
  · unfold argsort_stable
    exact List.perm_insertionSort _ _
  · refine (argsort_stable_pairwise l).imp ?_
    intro a b hab
    rcases hab with h | ⟨h1, -⟩
    · exact le_of_lt h
    · exact le_of_eq h1

/-- A k-means stand-in that returns `K` zero centres of the data's own
dimension (as sklearn's fitted centres have the training dimension). -/
def fitD (k : Nat) (pts : List (List ℚ)) : List (List ℚ) :=
  List.replicate k ((pts.headD []).map fun _ => (0 : ℚ))

/-- A store trained on one 3-dimensional vector with `n_segments = 2` (so
`n_segments` does not divide the dimension): training slices the dimension as
`[1, 2]`, and the quantizer state below is exactly what
`train_product_quantizer` followed by `encode_vectors` produces. -/
def c1_store : Store := ⟨2, 1, some 1, [[[0]], [[0, 0]]], [[0, 0]], []⟩

/-- Counterexample to C1: `c1_store` is a trained store (and reachable by
training, as the middle conjuncts certify), yet
`approximate_nearest_neighbor` raises `ValueError` instead of returning a
sequence of `(index, distance)` pairs — `_split_vector` segments the query as
`[2, 1]` while the codebook centroids have dimensions `[1, 2]`, so sklearn's
`euclidean_distances` rejects the very first segment. -/
theorem approximate_nearest_neighbor_raises :
    Trained c1_store ∧
    train_product_quantizer fitD ⟨2, 1, none, [], [], []⟩ [[(1 : ℚ), 2, 3]] =
      ⟨2, 1, some 1, [[[0]], [[0, 0]]], [], []⟩ ∧
    encode_vectors ⟨2, 1, some 1, [[[0]], [[0, 0]]], [], []⟩ [[(1 : ℚ), 2, 3]] =
      .ok [[0, 0]] ∧
    approximate_nearest_neighbor argsort_stable c1_store [(1 : ℚ), 2, 3] 1 =
      .error .valueError := by
  refine ⟨by decide, ?_, ?_, ?_⟩
  · norm_num [train_product_quantizer, fitD, segSlice, List.range_succ, List.replicate]
  · norm_num [encode_vectors, predictIdx, argminIdx, sqdistQ, segSlice, List.range_succ]
  · unfold approximate_nearest_neighbor
    rw [show compute_distance_table c1_store [(1 : ℚ), 2, 3] = .error .valueError from by
      unfold compute_distance_table
      rw [if_neg (by decide)]]

/-- C1 amended. For every sorting function satisfying `np.argsort`'s contract,
every trained store whose codebook centroids have the dimensions of the
query's `_split_vector` slices (sklearn raises `ValueError` otherwise) and
every `k ≥ 1`, `approximate_nearest_neighbor` returns
`min k (number of stored codes)` `(index, approximate_distance)` pairs in
non-decreasing distance order, and the empty sequence when no codes are
stored. The original lower-index-first tie-break is not among numpy's
guarantees — the default quicksort is documented as unstable — so no tie
order is asserted. -/
theorem approximate_nearest_neighbor_sorted (asort : List ℝ → List Nat)
    (st : Store) (query : List ℚ) (k : Nat)
    (hsort : IsArgsortSpec asort) (ht : Trained st) (hk : 1 ≤ k)
    (hdim : ∀ m < st.n_segments, ∀ c ∈ st.codebooks.getD m [],
      c.length = ((_split_vector st query).getD m []).length) :
    ∃ res, approximate_nearest_neighbor asort st query k = .ok res ∧
      res.length = min k st.pq_codes.length ∧
      res.Pairwise (fun p q : Nat × ℝ => p.2 ≤ q.2) ∧
      (st.pq_codes = [] → res = []) := by
  obtain ⟨hcb, hK, -⟩ := ht
  unfold approximate_nearest_neighbor
  rw [compute_distance_table_ok st query hcb hK hdim]
  dsimp only
  set d := st.pq_codes.map fun code =>
    ((code.enum).map fun mc =>
      ((distance_table_entries st query).getD mc.1 []).getD mc.2 0).sum with hd
  refine ⟨_, rfl, ?_, ?_, ?_⟩
  · rw [List.length_map, List.length_take, (hsort d).1.length_eq, List.length_range, hd,
      List.length_map]
  · have hp := (hsort d).2
    have hp2 := List.Pairwise.sublist (List.take_sublist k _) hp
    exact hp2.map _ (fun a b hab => hab)
  · intro h
    have hd0 : d = [] := by rw [hd, h]; rfl
    have h0 : asort ([] : List ℝ) = [] := by
      have hperm := (hsort ([] : List ℝ)).1
      simp only [List.length_nil, List.range_zero] at hperm
      exact hperm.eq_nil
    rw [hd0, h0]
    simp

/-- A trained store with two stored codes for witnessing the query claim. -/
def ann_store : Store := ⟨1, 2, some 1, [[[0], [10]]], [[0], [1]], []⟩

/-- Witness for the amended C1 at `argsort_stable` (a conforming sort),
`ann_store` and query `[4]` with `k = 2`. -/
theorem approximate_nearest_neighbor_sorted_witness :
    IsArgsortSpec argsort_stable ∧ Trained ann_store ∧ 1 ≤ 2 ∧
    (∀ m < ann_store.n_segments, ∀ c ∈ ann_store.codebooks.getD m [],
      c.length = ((_split_vector ann_store [(4 : ℚ)]).getD m []).length) ∧
    (∃ res, approximate_nearest_neighbor argsort_stable ann_store [(4 : ℚ)] 2 = .ok res ∧
      res.length = min 2 ann_store.pq_codes.length ∧
      res.Pairwise (fun p q : Nat × ℝ => p.2 ≤ q.2) ∧
      (ann_store.pq_codes = [] → res = [])) :=
  ⟨argsort_stable_spec, by decide, by omega, by decide,
    approximate_nearest_neighbor_sorted argsort_stable ann_store [(4 : ℚ)] 2
      argsort_stable_spec (by decide) (by omega) (by decide)⟩
